import Mathlib

/-!
Shallow embedding of `eu_reg_html_analyzer.py` (repository `eu-reg-uploader`).

The embedding models the HTML analyzer's pure core: the Python string
helpers (`str.strip`, `str.split`, `_normalize_text`), the regular
expressions of `SectionBuilder`, the builder state machine itself
(`SectionBuilder.feed_text`, `add_table_to_current_section`, `flush`),
the annex merge/validation stage of `_extract_annexes`
(`_merge_sections`, `_merge_subsections`, `_merge_section_tables`,
`_validate_annex`, `_validate_annex_uniqueness`), the orphan-number
pre-processing (`_preprocess_orphan_numbers` and the way its output is
indexed at `_extract_annexes` step 6), and the paragraph decomposition
(`_parse_paragraph`, `_parse_subparagraphs`, `_extract_paragraphs`)
together with the document assembly of `save_structured_data`.

HTML/DOM access (BeautifulSoup) is abstracted: a DOM node is represented
by the results of the accessors the Python code actually calls on it
(`get_text()`, `get_text(strip=True)`, `find('p', class_='oj-normal')`,
table rows and cells, tag name/class tests).  Every such accessor result
is a field of the corresponding input structure, and the Lean functions
use those fields exactly where the Python code uses the accessor.
-/

namespace EUReg

/-! ## Python string primitives -/

/-- Characters treated as whitespace by Python `str.strip()` / `str.split()`
and by the regex class `\s` on the ASCII-plus-NBSP alphabet the analyzer
meets: space, tab, newline, carriage return, vertical tab, form feed,
no-break space. -/
def pyIsSpace (c : Char) : Bool :=
  c = ' ' || c = '\t' || c = '\n' || c = '\r' ||
  c = Char.ofNat 11 || c = Char.ofNat 12 || c = Char.ofNat 160

/-- Strip leading and trailing whitespace from a character list
(Python `str.strip()`). -/
def pyStripList (l : List Char) : List Char :=
  ((l.dropWhile pyIsSpace).reverse.dropWhile pyIsSpace).reverse

/-- Python `str.strip()`. -/
def pyStrip (s : String) : String :=
  String.mk (pyStripList s.toList)

/-- Split a character list at whitespace runs into the list of
(non-empty) words, as Python `str.split()` with no argument. -/
def pyWordsAux : List Char → List Char → List (List Char)
  | [], cur => if cur = [] then [] else [cur.reverse]
  | c :: rest, cur =>
    if pyIsSpace c then
      if cur = [] then pyWordsAux rest [] else cur.reverse :: pyWordsAux rest []
    else pyWordsAux rest (c :: cur)

/-- Join words with a single space (Python `' '.join(words)`). -/
def joinWordsList : List (List Char) → List Char
  | [] => []
  | [w] => w
  | w :: ws => w ++ ' ' :: joinWordsList ws

/-- The punctuation class of `re.sub(r'([.,;:])(?!\s)', r'\1 ', text)`. -/
def isPunctCh (c : Char) : Bool :=
  c = '.' || c = ',' || c = ';' || c = ':'

/-- `re.sub(r'([.,;:])(?!\s)', r'\1 ', text)`: after each `.,;:` that is
not followed by whitespace (including at end of string) insert a space. -/
def punctSpace : List Char → List Char
  | [] => []
  | c :: rest =>
    if isPunctCh c && (match rest with | [] => true | d :: _ => ! pyIsSpace d) then
      c :: ' ' :: punctSpace rest
    else
      c :: punctSpace rest

/-- Does a whitespace run starting here end at `target`? -/
def wsThen (target : Char) (l : List Char) : Bool :=
  match l.dropWhile pyIsSpace with
  | c :: _ => c = target
  | [] => false

/-- `re.sub(r'\s*\(\s*', ' (', text)` applied left to right: every `(`
absorbs the whitespace run on each side and is rewritten to `" ("`.
The `eat` flag records that a `(` was just emitted and its trailing
whitespace is being consumed. -/
def parenOpenAux : Bool → List Char → List Char
  | _, [] => []
  | eat, c :: rest =>
    if eat ∧ pyIsSpace c then parenOpenAux true rest
    else if c = '(' then ' ' :: '(' :: parenOpenAux true rest
    else if pyIsSpace c ∧ wsThen '(' (c :: rest) then parenOpenAux false rest
    else c :: parenOpenAux false rest

/-- See `parenOpenAux`. -/
def parenOpenSub (l : List Char) : List Char := parenOpenAux false l

/-- `re.sub(r'\s*\)\s*', ') ', text)` applied left to right. -/
def parenCloseAux : Bool → List Char → List Char
  | _, [] => []
  | eat, c :: rest =>
    if eat ∧ pyIsSpace c then parenCloseAux true rest
    else if c = ')' then ')' :: ' ' :: parenCloseAux true rest
    else if pyIsSpace c ∧ wsThen ')' (c :: rest) then parenCloseAux false rest
    else c :: parenCloseAux false rest

/-- See `parenCloseAux`. -/
def parenCloseSub (l : List Char) : List Char := parenCloseAux false l

/-- `EURegulationAnalyzer._normalize_text`, line by line:
newlines to spaces; whitespace runs collapsed by split/join; NBSP to
space; zero-width space deleted; a space forced after `.,;:`; spacing of
parentheses adjusted; final strip. -/
def normalizeText (s : String) : String :=
  let l0 := s.toList.map (fun c => if c = '\n' then ' ' else c)
  let l1 := joinWordsList (pyWordsAux l0 [])
  let l2 := (l1.map (fun c => if c = Char.ofNat 160 then ' ' else c)).filter
    (fun c => c ≠ Char.ofNat 0x200B)
  let l3 := punctSpace l2
  let l4 := parenCloseSub (parenOpenSub l3)
  String.mk (pyStripList l4)

/-! ## The regular expressions of `SectionBuilder` and the paragraph parser

Each Python regex is translated into an explicit matcher on character
lists.  `re.match` anchors at the start only; `.` does not match a
newline; greedy `\s+`/`\s*` followed by `(.+)` backtracks until `(.+)`
can match at least one non-newline character. -/

/-- Match `\s+(.+)` at the front of `l`; returns the raw capture of
`(.+)` (text up to the next newline).  When only whitespace remains the
greedy `\s+` gives characters back until `.` can match one. -/
def wsPlusRest (l : List Char) : Option (List Char) :=
  let ws := l.takeWhile pyIsSpace
  let r := l.dropWhile pyIsSpace
  if ws = [] then none
  else if r ≠ [] then some (r.takeWhile (· ≠ '\n'))
  else
    match ws.reverse.dropWhile (· = '\n') with
    | [] => none
    | c :: rest => if rest = [] then none else some [c]

/-- Match `\s*(.+)` at the front of `l`. -/
def wsStarRest (l : List Char) : Option (List Char) :=
  let r := l.dropWhile pyIsSpace
  if r ≠ [] then some (r.takeWhile (· ≠ '\n'))
  else
    match l.reverse.dropWhile (· = '\n') with
    | [] => none
    | c :: _ => some [c]

/-- The separator class of the Section-letter header regex,
`[\.\s—–\-]`. -/
def isSectionSep (c : Char) : Bool :=
  c = '.' || pyIsSpace c || c = '—' || c = '–' || c = '-'

/-- `re.match(r'^Section\s+([A-Z])[\.\s—–\-]+(.+)', txt)` from
`SectionBuilder.feed_text`: returns the captured letter and
`group(2).strip()`. -/
def parseSectionAB (s : String) : Option (Char × String) :=
  match s.toList with
  | 'S' :: 'e' :: 'c' :: 't' :: 'i' :: 'o' :: 'n' :: rest =>
    let ws := rest.takeWhile pyIsSpace
    let r1 := rest.dropWhile pyIsSpace
    if ws = [] then none else
    match r1 with
    | c :: r2 =>
      if 'A' ≤ c ∧ c ≤ 'Z' then
        let r3 := r2.dropWhile isSectionSep
        if r3 ≠ [] then
          if r2.takeWhile isSectionSep = [] then none
          else some (c, pyStrip (String.mk (r3.takeWhile (· ≠ '\n'))))
        else
          match r2.reverse.dropWhile (· = '\n') with
          | [] => none
          | d :: rest2 =>
            if rest2 = [] then none else some (c, pyStrip (String.mk [d]))
      else none
    | [] => none
  | _ => none

/-- `SectionBuilder.HIER`: `re.match(r'^(\d+)\.\s+(\d+)\.\s+(.+)', txt)`,
returning (parent digits, child digits, raw content capture). -/
def parseHier (s : String) : Option (String × String × String) :=
  let l := s.toList
  let d1 := l.takeWhile Char.isDigit
  let r1 := l.dropWhile Char.isDigit
  if d1 = [] then none else
  match r1 with
  | '.' :: r2 =>
    let ws := r2.takeWhile pyIsSpace
    let r3 := r2.dropWhile pyIsSpace
    if ws = [] then none else
    let d2 := r3.takeWhile Char.isDigit
    let r4 := r3.dropWhile Char.isDigit
    if d2 = [] then none else
    match r4 with
    | '.' :: r5 =>
      (wsPlusRest r5).map (fun cont => (String.mk d1, String.mk d2, String.mk cont))
    | _ => none
  | _ => none

/-- `SectionBuilder.NUMBER`: `re.match(r'^(\d+)[\.\)]\s+(.+)', txt)`. -/
def parseNumber (s : String) : Option (String × String) :=
  let l := s.toList
  let d := l.takeWhile Char.isDigit
  let r := l.dropWhile Char.isDigit
  if d = [] then none else
  match r with
  | c :: r2 =>
    if c = '.' ∨ c = ')' then
      (wsPlusRest r2).map (fun cont => (String.mk d, String.mk cont))
    else none
  | [] => none

/-- `SectionBuilder.LETTER`: `re.match(r'^\(([a-z])\)\s+(.+)', txt)`. -/
def parseLetter (s : String) : Option (Char × String) :=
  match s.toList with
  | '(' :: c :: ')' :: rest =>
    if 'a' ≤ c ∧ c ≤ 'z' then
      (wsPlusRest rest).map (fun cont => (c, String.mk cont))
    else none
  | _ => none

/-- `SectionBuilder.DASH`: `re.match(r'^[—\-•]\s*(.+)', txt)`. -/
def parseDash (s : String) : Option String :=
  match s.toList with
  | c :: rest =>
    if c = '—' ∨ c = '-' ∨ c = '•' then
      (wsStarRest rest).map (fun cont => String.mk cont)
    else none
  | [] => none

/-- Match `^\s*(\d+)\.\s*` (when `ws` is true) or `^(\d+)\.\s*` (when
`ws` is false) at the front of `s`; returns the captured digits and the
remainder of the string after the whole match. -/
def matchNumDot (ws : Bool) (s : String) : Option (String × String) :=
  let l0 := s.toList
  let l := if ws then l0.dropWhile pyIsSpace else l0
  let ds := l.takeWhile Char.isDigit
  let r := l.dropWhile Char.isDigit
  if ds = [] then none else
  match r with
  | '.' :: r2 => some (String.mk ds, String.mk (r2.dropWhile pyIsSpace))
  | _ => none

/-- Python substring containment `needle in hay` for strings. -/
def strContainsAux (needle : List Char) : List Char → Bool
  | [] => needle.isPrefixOf []
  | c :: rest => needle.isPrefixOf (c :: rest) || strContainsAux needle rest

/-- Python `needle in hay` on strings. -/
def strContains (hay needle : String) : Bool :=
  strContainsAux needle.toList hay.toList

/-- Python `s.startswith(pre)`. -/
def strStartsWith (s pre : String) : Bool :=
  pre.toList.isPrefixOf s.toList

/-- Python `str.lower()` restricted to ASCII letters (the analyzer only
compares ASCII keywords such as "definition"). -/
def pyLower (s : String) : String :=
  String.mk (s.toList.map Char.toLower)

/-- `EURegulationAnalyzer._is_definition_article`: true iff the title is
non-empty and contains "definition" case-insensitively. -/
def isDefinitionArticle (title : String) : Bool :=
  if title = "" then false
  else strContains (pyLower title) "definition"

/-! ## `SectionBuilder` -/

/-- A parsed annex table (`{"caption": ..., "rows": ...}`); a row is the
pandas record dict, modelled as an association list of column label to
cell text. -/
structure AnnexTable where
  caption : String
  rows : List (List (String × String))
deriving DecidableEq, Repr

/-- A lettered subsection built by `SectionBuilder.feed_text`. -/
structure Subsection where
  subsection_id : String
  items : List String
deriving DecidableEq, Repr

/-- An annex section dict as built by `SectionBuilder`. -/
structure AnnexSection where
  section_id : String
  heading : String
  list_type : String
  items : List String
  subsections : List Subsection
  tables : List AnnexTable
deriving DecidableEq, Repr

/-- The mutable state of a `SectionBuilder`: the section list plus the
`current_section` / `current_subsection` references, modelled as indices
into `sections` (resp. into the current section's `subsections`).  In
the Python code every branch that changes `current_section` resets
`current_subsection`, so the subsection index always refers to the
current section. -/
structure BuilderState where
  sections : List AnnexSection
  curSec : Option Nat
  curSub : Option Nat
deriving DecidableEq, Repr

/-- The builder's initial state (`SectionBuilder.__init__`). -/
def initBuilder : BuilderState := ⟨[], none, none⟩

/-- Replace the element at index `i` by `f` of it (models in-place
mutation of a list element through a Python reference). -/
def listModify (f : α → α) : Nat → List α → List α
  | _, [] => []
  | 0, x :: xs => f x :: xs
  | n + 1, x :: xs => x :: listModify f n xs

/-- `SectionBuilder._find_existing_section`, as the index of the first
section with the given id. -/
def findSectionIdx (sections : List AnnexSection) (sid : String) : Option Nat :=
  sections.findIdx? (fun s => s.section_id = sid)

/-- `SectionBuilder.feed_text`, branch by branch in the Python order:
empty / standalone bullet, Section-letter header, hierarchical number,
number, letter (only with a current section), dash, default. -/
def feedText (st : BuilderState) (txt0 : String) : BuilderState :=
  if pyStrip txt0 = "" then st else
  let txt := pyStrip txt0
  if txt = "—" ∨ txt = "-" ∨ txt = "•" then st else
  match parseSectionAB txt with
  | some (letter, heading) =>
    -- this branch always appends a fresh section keyed by the letter;
    -- it does not call `_find_existing_section`
    let sec : AnnexSection := ⟨String.mk [letter], heading, "ordered", [], [], []⟩
    ⟨st.sections ++ [sec], some st.sections.length, none⟩
  | none =>
  match parseHier txt with
  | some (p, c, content0) =>
    let content := pyStrip content0
    let sid := p ++ "." ++ c
    match findSectionIdx st.sections sid with
    | some i =>
      ⟨listModify (fun s => { s with items := s.items ++ [content] }) i st.sections,
        some i, none⟩
    | none =>
      ⟨st.sections ++ [⟨sid, content, "ordered", [], [], []⟩],
        some st.sections.length, none⟩
  | none =>
  match parseNumber txt with
  | some (n, heading0) =>
    let heading := pyStrip heading0
    match findSectionIdx st.sections n with
    | some i =>
      let secs :=
        if heading ≠ "" ∧
           ∀ s ∈ st.sections.get? i, ¬ strContains s.heading heading then
          listModify (fun s => { s with heading := s.heading ++ " " ++ heading }) i
            st.sections
        else st.sections
      ⟨secs, some i, none⟩
    | none =>
      ⟨st.sections ++ [⟨n, heading, "ordered", [], [], []⟩],
        some st.sections.length, none⟩
  | none =>
  match parseLetter txt, st.curSec with
  | some (lc, content0), some ci =>
    let content := pyStrip content0
    let lid := String.mk [lc]
    let matchesCur :=
      match st.curSub with
      | some j =>
        match (st.sections.get? ci).bind (fun s => s.subsections.get? j) with
        | some sub => sub.subsection_id == lid
        | none => false
      | none => false
    if matchesCur then
      match st.curSub with
      | some j =>
        let addItem := fun (sb : Subsection) => { sb with items := sb.items ++ [content] }
        ⟨listModify (fun s => { s with subsections := listModify addItem j s.subsections })
            ci st.sections,
          st.curSec, st.curSub⟩
      | none => st
    else
      let newIdx := ((st.sections.get? ci).map (fun s => s.subsections.length)).getD 0
      ⟨listModify (fun s =>
          { s with subsections := s.subsections ++ [⟨lid, [content]⟩] }) ci st.sections,
        st.curSec, some newIdx⟩
  | _, _ =>
  match parseDash txt with
  | some content0 =>
    let content := pyStrip content0
    match st.curSec with
    | some i =>
      ⟨listModify (fun s => { s with items := s.items ++ [content] }) i st.sections,
        st.curSec, st.curSub⟩
    | none => st
  | none =>
  match st.curSec with
  | some i =>
    ⟨listModify (fun s => { s with items := s.items ++ [txt] }) i st.sections,
      st.curSec, st.curSub⟩
  | none =>
    ⟨st.sections ++ [⟨"1", "", "dash", [txt], [], []⟩],
      some st.sections.length, st.curSub⟩

/-- `SectionBuilder.feed_list` simply delegates to `feed_text`. -/
def feedList (st : BuilderState) (txt : String) : BuilderState :=
  feedText st txt

/-- `SectionBuilder.add_table_to_current_section`. -/
def addTableToCurrentSection (st : BuilderState) (t : AnnexTable) : BuilderState :=
  match st.curSec with
  | some i =>
    ⟨listModify (fun s => { s with tables := s.tables ++ [t] }) i st.sections,
      st.curSec, st.curSub⟩
  | none =>
    ⟨st.sections ++ [⟨"1", "", "ordered", [], [], [t]⟩],
      some st.sections.length, st.curSub⟩

/-- `SectionBuilder._detect_list_type`.  The Python thresholds are the
float comparisons `dash_count > len*0.7` and `letter_count > len*0.5`;
they are modelled by the exact rational comparisons. -/
def detectListType (items : List String) : String :=
  if items = [] then "dash"
  else if (items.filter (fun it => (parseDash it).isSome)).length * 10 >
          items.length * 7 then "dash"
  else if (items.filter (fun it => (parseLetter it).isSome)).length * 2 >
          items.length then "letter"
  else "ordered"

/-- `SectionBuilder.flush`: update each non-empty section's `list_type`
and return the section list (the state reset is implicit here since the
state is passed by value). -/
def flushBuilder (st : BuilderState) : List AnnexSection :=
  st.sections.map (fun s =>
    if s.items ≠ [] then { s with list_type := detectListType s.items } else s)

/-! ## Annex merging, validation, and `_extract_annexes`

Steps 1-6 of `_extract_annexes` (header discovery, identifier
resolution, sibling collection, subtitle filtering, orphan
pre-processing, feeding the `SectionBuilder`) turn each discovered annex
header into an identifier together with the flushed section list for
its content.  The merge/validate stage (steps 7-10) is modelled over
that boundary: its input is the document-ordered list of
`(annex_id, sections)` pairs, one per discovered header. -/

/-- One annex dict as assembled at step 7 of `_extract_annexes`. -/
structure Annex where
  annex_id : String
  title : String
  subtitle : String
  sections : List AnnexSection
  order_index : Nat
deriving DecidableEq, Repr

/-- The table-merge loop of `_merge_section_tables`: a new table is
appended unless some already-present table has the same caption and the
same number of rows (the list grows while iterating, so duplicates
inside `news` also collapse). -/
def mergeSectionTables (existing news : List AnnexTable) : List AnnexTable :=
  news.foldl (fun acc t =>
    if acc.any (fun e => e.caption == t.caption && e.rows.length == t.rows.length) then acc
    else acc ++ [t]) existing

/-- `_merge_subsections`: a new subsection is appended only when its
`subsection_id` is not already present; matching ids are skipped
entirely (their items are not merged). -/
def mergeSubsections (existing news : List Subsection) : List Subsection :=
  news.foldl (fun acc sub =>
    if acc.any (fun e => e.subsection_id == sub.subsection_id) then acc
    else acc ++ [sub]) existing

/-- The item-merge loop inside `_merge_sections`: append each new item
not already present (the membership test sees items appended earlier in
the same loop). -/
def mergeItems (existing news : List String) : List String :=
  news.foldl (fun acc it => if it ∈ acc then acc else acc ++ [it]) existing

/-- Merge one new section dict into an existing one with the same id
(the body of the inner loop of `_merge_sections`): items, subsections
and tables are merged; heading and list type are left unchanged. -/
def mergeSectionInto (e n : AnnexSection) : AnnexSection :=
  { e with
    items := mergeItems e.items n.items
    subsections := mergeSubsections e.subsections n.subsections
    tables := mergeSectionTables e.tables n.tables }

/-- Apply `f` to the first list element satisfying `p` (Python finds the
first matching section and breaks). -/
def updateFirst (p : α → Bool) (f : α → α) : List α → List α
  | [] => []
  | x :: xs => if p x then f x :: xs else x :: updateFirst p f xs

/-- `_merge_sections`: for each new section, merge into the first
existing section with the same id if present, else append it (the id
set grows with appended sections). -/
def mergeSections (existing news : List AnnexSection) : List AnnexSection :=
  news.foldl (fun acc n =>
    if acc.any (fun s => s.section_id == n.section_id) then
      updateFirst (fun s => s.section_id == n.section_id) (fun s => mergeSectionInto s n) acc
    else acc ++ [n]) existing

/-- The step-7 loop of `_extract_annexes`: an insertion-ordered map from
annex id to annex dict.  A fragment whose id is already present has its
sections merged into the existing annex (`_merge_sections`); otherwise
a new annex is created with `title = "ANNEX <id>"` and the 1-based
header position as `order_index`.  (The subtitle comes from the header
text, outside this stage; it is modelled as empty.) -/
def buildAnnexListAux : List (String × List AnnexSection) → List Annex → Nat → List Annex
  | [], acc, _ => acc
  | (i, secs) :: rest, acc, k =>
    if acc.any (fun a => a.annex_id == i) then
      buildAnnexListAux rest
        (updateFirst (fun a => a.annex_id == i)
          (fun a => { a with sections := mergeSections a.sections secs }) acc) (k + 1)
    else
      buildAnnexListAux rest (acc ++ [⟨i, "ANNEX " ++ i, "", secs, k⟩]) (k + 1)

/-- See `buildAnnexListAux`. -/
def buildAnnexList (frags : List (String × List AnnexSection)) : List Annex :=
  buildAnnexListAux frags [] 1

/-- Stable insertion into a list sorted by a `Nat` key (equal keys keep
their original relative order, as Python's stable sort). -/
def insertByKey (key : α → Nat) (a : α) : List α → List α
  | [] => [a]
  | b :: bs => if key a ≤ key b then a :: b :: bs else b :: insertByKey key a bs

/-- Python `list.sort(key=...)` / `sorted(..., key=...)` with an integer
key, as a stable insertion sort. -/
def sortByKey (key : α → Nat) : List α → List α
  | [] => []
  | a :: as' => insertByKey key a (sortByKey key as')

/-- `annexes.sort(key=lambda a: a["order_index"])`. -/
def sortAnnexes : List Annex → List Annex :=
  sortByKey (fun a => a.order_index)

/-- The duplicate check of `_validate_annex_uniqueness` over one id
list: `false` corresponds to the `ValueError` being raised. -/
def checkNoDupsAux (seen : List String) : List String → Bool
  | [] => true
  | x :: xs => if x ∈ seen then false else checkNoDupsAux (x :: seen) xs

/-- See `checkNoDupsAux`. -/
def checkNoDups (l : List String) : Bool := checkNoDupsAux [] l

/-- `_validate_annex_uniqueness`: annex ids unique across the document
and section ids unique within each annex; `false` corresponds to the
`ValueError` being raised. -/
def validateAnnexUniqueness (annexes : List Annex) : Bool :=
  checkNoDups (annexes.map (fun a => a.annex_id)) &&
  annexes.all (fun a => checkNoDups (a.sections.map (fun s => s.section_id)))

/-- Rules 1 and 2 of `_validate_annex` (rule 3 only prints a warning):
the annex must have sections, some section must have a non-blank item,
and no item may be empty or a bare dash after strip.  `false`
corresponds to the `ValueError` being raised.  At its only call site
(`_extract_annexes`, step 7) that `ValueError` is caught and logged, so
this check never influences the extraction result. -/
def validateAnnexOk (a : Annex) : Bool :=
  (! a.sections.isEmpty) &&
  a.sections.any (fun s => s.items.any (fun it => pyStrip it ≠ "")) &&
  a.sections.all (fun s => s.items.all (fun it => pyStrip it ≠ "" ∧ pyStrip it ≠ "—"))

/-- Steps 7-10 of `_extract_annexes`: build the id-keyed annex map,
convert to a list sorted by `order_index`, and run
`_validate_annex_uniqueness`; its `ValueError` escapes to the outer
`except` handler, which returns `[]`. -/
def extractAnnexes (frags : List (String × List AnnexSection)) : List Annex :=
  let l := sortAnnexes (buildAnnexList frags)
  if validateAnnexUniqueness l then l else []

/-! ## Orphan-number pre-processing (`_preprocess_orphan_numbers`)

A content node is represented by its `get_text()` string. -/

/-- `re.fullmatch(r'\d+\.', txt)`: one or more digits followed by a
final dot. -/
def isOrphanNumber (s : String) : Bool :=
  let l := s.toList
  let d := l.takeWhile Char.isDigit
  d ≠ [] && l.dropWhile Char.isDigit == ['.']

/-- The walk of `_preprocess_orphan_numbers` with the pending orphan
carried explicitly: `some (o, k)` means orphan text `o` is waiting for
the next non-empty stripped text, with `k` empty-stripped nodes seen
since.  A found non-empty text is joined as `f"{txt} {next_txt}"` and
the skipped empty nodes are dropped; if none follows, the orphan is kept
as is and the trailing empty nodes each contribute their (empty)
stripped text, exactly as the Python `for`/`else` does. -/
def preprocessOrphanAux : Option (String × Nat) → List String → List String
  | none, [] => []
  | some (o, k), [] => o :: List.replicate k ""
  | pending, n :: rest =>
    let txt := pyStrip n
    match pending with
    | some (o, k) =>
      if txt = "" then preprocessOrphanAux (some (o, k + 1)) rest
      else (o ++ " " ++ txt) :: preprocessOrphanAux none rest
    | none =>
      if isOrphanNumber txt then preprocessOrphanAux (some (txt, 0)) rest
      else txt :: preprocessOrphanAux none rest

/-- `_preprocess_orphan_numbers`. -/
def preprocessOrphanNumbers (nodes : List String) : List String :=
  preprocessOrphanAux none nodes

/-- Step 6 of `_extract_annexes` for a run of plain `p` nodes (no
special style class): node `i` is fed
`processed_texts[i] if i < len(processed_texts) else normalize(node.get_text())`,
and the feed only happens when that text is non-empty.  Returns the
document-ordered list of texts handed to `SectionBuilder.feed_text`. -/
def fedTexts (nodes : List String) : List String :=
  let pt := preprocessOrphanNumbers nodes
  ((List.range nodes.length).map (fun i =>
    if h : i < pt.length then pt.get ⟨i, h⟩
    else normalizeText (nodes.getD i ""))).filter (fun t => t ≠ "")

/-! ## Paragraph decomposition (`_parse_paragraph`, `_parse_subparagraphs`,
`_extract_paragraphs`)

A `td` cell is represented by its `get_text()` and by the `get_text()`
of its first `p.oj-normal` child (if any); a paragraph-level element by
the accessor results `_parse_paragraph` and `_extract_paragraphs` read
from it. -/

/-- One table cell. -/
structure Cell where
  rawText : String
  pText : Option String
deriving DecidableEq, Repr

/-- One direct-child element of an article body (`div`/`p`/`table`), as
seen through the accessors used by `_extract_paragraphs` and
`_parse_paragraph`:
* `isPOjNormal`: `element.name == 'p' and 'oj-normal' in element.get('class', [])`;
* `strippedText`: `element.get_text(strip=True)`;
* `rawText`: `element.get_text()`;
* `firstP`: `get_text()` of `element.find('p', class_='oj-normal')`;
* `tableRows`: the rows (lists of `td` cells) of all tables under the
  element, in document order;
* `otherPs`: `get_text()` of every `p.oj-normal` under the element other
  than `firstP` and not inside a table, in document order. -/
structure PElem where
  isPOjNormal : Bool
  strippedText : String
  rawText : String
  firstP : Option String
  tableRows : List (List Cell)
  otherPs : List String
deriving DecidableEq, Repr

/-- A content item dict ({chapeau, subparagraph, definition} plus the
`alphabetic`/`numeric` tags of `_parse_subparagraphs`).  Chapeau items
carry no `element_id`/`subparagraph_id`. -/
structure ContentItem where
  type : String
  element_id : Option String
  subparagraph_id : Option String
  content : String
  order_index : Nat
deriving DecidableEq, Repr

/-- A paragraph dict; `metadata` is the Python metadata dict as an
association list with stringified values. -/
structure Paragraph where
  paragraph_number : Option String
  ordered_contents : List ContentItem
  content_full : String
  metadata : List (String × String)
deriving DecidableEq, Repr

/-- `'\n\n'.join(parts)` and friends. -/
def joinSep (sep : String) : List String → String
  | [] => ""
  | [x] => x
  | x :: xs => x ++ sep ++ joinSep sep xs

/-- `re.sub(r'[()]', '', symbol).strip()`. -/
def removeParens (s : String) : String :=
  pyStrip (String.mk (s.toList.filter (fun c => c ≠ '(' ∧ c ≠ ')')))

/-- Python `str.strip('()')`: remove leading and trailing parenthesis
characters. -/
def stripParenEnds (s : String) : String :=
  let isParen := fun (c : Char) => c = '(' || c = ')'
  String.mk (((s.toList.dropWhile isParen).reverse.dropWhile isParen).reverse)

/-- Python `str.isalpha` (ASCII letters suffice here). -/
def pyIsAlphaStr (s : String) : Bool :=
  s.toList ≠ [] && s.toList.all Char.isAlpha

/-- The `content_full` construction of `_parse_paragraph` (lines
647-654): chapeau items verbatim, other items as
`f"({item['subparagraph_id']}) {item['content']}"`, joined with blank
lines. -/
def renderItemCode (it : ContentItem) : String :=
  if it.type = "chapeau" then it.content
  else "(" ++ it.subparagraph_id.getD "" ++ ") " ++ it.content

/-- See `renderItemCode`. -/
def contentFullCode (items : List ContentItem) : String :=
  joinSep "\n\n" (items.map renderItemCode)

/-- The metadata dict of `_parse_paragraph`. -/
def paraMeta (items : List ContentItem) : List (String × String) :=
  [("total_elements", toString items.length),
   ("chapeau_count", toString (items.filter (fun it => it.type == "chapeau")).length),
   ("subparagraph_count", toString (items.filter (fun it => it.type == "subparagraph")).length)]

/-- The result-of-`re.match` part of the paragraph-number step of
`_parse_paragraph`: with a match, the de-numbered stripped text (when
non-empty) becomes an initial chapeau item. -/
def parseParagraphStartNum (res : Option (String × String)) :
    Option String × (List (String × ContentItem) × List String × Nat) :=
  match res with
  | none => (none, ([], [], 1))
  | some (n, rest) =>
    let text := pyStrip rest
    if text ≠ "" then
      (some n, ([(text, ⟨"chapeau", none, none, normalizeText text, 1⟩)], [text], 2))
    else
      (some n, ([], [], 1))

/-- The paragraph-number step of `_parse_paragraph`: look at the first
`p.oj-normal` and match `^\s*(\d+)\.\s*`.  Returns the paragraph number
and the initial (trace, processed_texts, order_index) state, where the
trace pairs each produced item with the raw fragment text that was
inserted into `processed_texts` for it. -/
def parseParagraphStart (el : PElem) :
    Option String × (List (String × ContentItem) × List String × Nat) :=
  match el.firstP with
  | none => (none, ([], [], 1))
  | some fp => parseParagraphStartNum (matchNumDot true fp)

/-- The table-row step of `_parse_paragraph`: rows with exactly two
cells become subparagraph/definition items keyed by the first cell with
parentheses removed, unless the raw second-cell text was already
processed. -/
def rowStep (isDef : Bool) (st : List (String × ContentItem) × List String × Nat)
    (row : List Cell) : List (String × ContentItem) × List String × Nat :=
  let (tr, procs, idx) := st
  match row with
  | [c0, c1] =>
    let symbol := pyStrip c0.rawText
    let content := pyStrip c1.rawText
    let subid := removeParens symbol
    if content ∈ procs then (tr, procs, idx)
    else
      let ty := if isDef then "definition" else "subparagraph"
      (tr ++ [(content, ⟨ty, some subid, some subid, normalizeText content, idx⟩)],
        procs ++ [content], idx + 1)
  | _ => (tr, procs, idx)

/-- The out-of-table `p.oj-normal` step of `_parse_paragraph`: further
prose becomes additional chapeau items, skipping already-processed
texts. -/
def otherPStep (st : List (String × ContentItem) × List String × Nat)
    (p : String) : List (String × ContentItem) × List String × Nat :=
  let (tr, procs, idx) := st
  let text := pyStrip p
  if text ≠ "" ∧ text ∉ procs then
    (tr ++ [(text, ⟨"chapeau", none, none, normalizeText text, idx⟩)],
      procs ++ [text], idx + 1)
  else st

/-- The full item-collection pass of `_parse_paragraph`, keeping, for
each produced item, the raw fragment text that was recorded in the
`processed_texts` set when the item was appended. -/
def parseParagraphTrace (isDef : Bool) (el : PElem) : List (String × ContentItem) :=
  let st0 := (parseParagraphStart el).2
  let st1 := el.tableRows.foldl (rowStep isDef) st0
  let st2 := el.otherPs.foldl otherPStep st1
  st2.1

/-- `EURegulationAnalyzer._parse_paragraph`: `None` when no content item
was produced, else the paragraph dict with `content_full` and metadata
derived from the ordered contents. -/
def parseParagraph (isDef : Bool) (el : PElem) : Option Paragraph :=
  let pn := (parseParagraphStart el).1
  let contents := (parseParagraphTrace isDef el).map Prod.snd
  if contents = [] then none
  else some ⟨pn, contents, contentFullCode contents, paraMeta contents⟩

/-- `EURegulationAnalyzer._parse_subparagraphs`: rows with at least two
cells whose first cell's `p.oj-normal` text starts with `(` become
items; `number.strip('()')` keys them; the type is `definition` when the
parent title is "Definitions", else `alphabetic`/`numeric`. -/
def parseSubparagraphs (parentTitle : Option String) (rows : List (List Cell)) :
    List ContentItem :=
  (rows.foldl (fun (st : List ContentItem × Nat) row =>
    let (acc, idx) := st
    if row.length < 2 then st else
    match (row.getD 0 ⟨"", none⟩).pText with
    | none => st
    | some np =>
      let number := pyStrip np
      if ¬ strStartsWith number "(" then st else
      let number2 := stripParenEnds number
      match (row.getD 1 ⟨"", none⟩).pText with
      | none => st
      | some cp =>
        let content := normalizeText (pyStrip cp)
        let ty :=
          if parentTitle = some "Definitions" then "definition"
          else if pyIsAlphaStr number2 then "alphabetic" else "numeric"
        (acc ++ [⟨ty, some number2, some number2, content, idx⟩], idx + 1)) ([], 1)).1

/-- The per-definition step of the definitions branch of
`_extract_paragraphs`: append the `definition` content item and the
matching `content_parts` entry, advancing the order index. -/
def defItemStep (st : List ContentItem × List String × Nat) (sp : ContentItem) :
    List ContentItem × List String × Nat :=
  let (cs, ps, idx) := st
  let sid := sp.subparagraph_id.getD ""
  (cs ++ [⟨"definition", some sid, some sid, sp.content, idx⟩],
    ps ++ ["(" ++ sid ++ ") " ++ sp.content], idx + 1)

/-- The initial accumulation state of the definitions branch: the
optional leading chapeau built from the intro text. -/
def defBranchBase (introText : Option String) :
    List ContentItem × List String × Nat :=
  match introText with
  | some it => ([⟨"chapeau", none, none, it, 1⟩], [it], 2)
  | none => ([], [], 1)

/-- The definitions branch of `_extract_paragraphs`: one paragraph
numbered "1", an optional leading chapeau from the intro text, then one
`definition` item per subparagraph of each direct-child table, with a
parallel `content_parts` list joined into `content_full`. -/
def extractParagraphsDefBranch (t : String) (introText : Option String)
    (defTables : List (List (List Cell))) : Paragraph :=
  let st := defTables.foldl (fun st table =>
    (parseSubparagraphs (some "Definitions") table).foldl defItemStep st)
    (defBranchBase introText)
  ⟨some "1", st.1, joinSep "\n\n" st.2.1,
    [("extracted_at", t), ("is_definitions", "True")]⟩

/-- The multi-fragment paragraph assembly of `_extract_paragraphs`
(lines 797-806): extend the open paragraph's ordered contents and join
the two `content_full` strings with a blank line. -/
def extendParagraph (cp parsed : Paragraph) : Paragraph :=
  { cp with
    ordered_contents := cp.ordered_contents ++ parsed.ordered_contents
    content_full := cp.content_full ++ "\n\n" ++ parsed.content_full }

/-- One step of the numbered-paragraph loop of `_extract_paragraphs`:
an element whose stripped text starts with `<int>.` closes the open
paragraph and opens a new one via `_parse_paragraph`; any other
non-empty element is parsed and, when it yields contents, merged into
the open paragraph. -/
def numberedStep (isDef : Bool) (st : List Paragraph × Option Paragraph)
    (e : PElem) : List Paragraph × Option Paragraph :=
  let (paras, cur) := st
  let text := e.strippedText
  if text = "" then st
  else if (matchNumDot false text).isSome then
    let paras' := match cur with | some cp => paras ++ [cp] | none => paras
    (paras', parseParagraph isDef e)
  else
    match cur with
    | some cp =>
      match parseParagraph isDef e with
      | some parsed =>
        if parsed.ordered_contents ≠ [] then (paras, some (extendParagraph cp parsed))
        else st
      | none => st
    | none => st

/-- `EURegulationAnalyzer._extract_paragraphs`.  `introP` is
`get_text(strip=True)` of the first `p.oj-normal` found (recursively)
under the article element; `defTables` are the direct-child tables;
`elements` are the direct-child `div`/`p`/`table` elements; `t` is the
`datetime.now().isoformat()` timestamp. -/
def extractParagraphs (t : String) (title : String) (introP : Option String)
    (defTables : List (List (List Cell))) (elements : List PElem) : List Paragraph :=
  let introText :=
    match introP with
    | some s => if (matchNumDot false s).isSome then none else some (normalizeText s)
    | none => none
  if isDefinitionArticle title ∧ defTables ≠ [] then
    [extractParagraphsDefBranch t introText defTables]
  else
    let isDef := isDefinitionArticle title
    let hasNumbered := elements.any (fun e =>
      e.strippedText ≠ "" && (matchNumDot false e.strippedText).isSome)
    if ¬ hasNumbered then
      let fullText := elements.foldl (fun acc e =>
        if e.isPOjNormal then
          let tx := normalizeText e.rawText
          if tx ≠ "" then acc ++ tx ++ "\n" else acc
        else acc) ""
      if pyStrip fullText ≠ "" then
        [⟨none, [⟨"chapeau", none, none, pyStrip fullText, 1⟩], pyStrip fullText,
          [("total_elements", "1"), ("chapeau_count", "1"), ("subparagraph_count", "0")]⟩]
      else []
    else
      let st := elements.foldl (numberedStep isDef) ([], none)
      st.1 ++ (match st.2 with | some cp => [cp] | none => [])

/-! ## Recitals, articles, and document assembly (`_extract_recitals`,
`_extract_articles`, `save_structured_data`)

Every `datetime.now().isoformat()` call is modelled by an explicit
timestamp parameter `t`; running the extraction at two different times
is running these functions at two different values of `t`. -/

/-- One recital `div.eli-subdivision` element: its `id` attribute and
the `get_text(strip=True)` of each `p.oj-normal` inside it, in document
order. -/
structure RecitalInput where
  elemId : String
  ps : List String
deriving DecidableEq, Repr

/-- A recital dict; `meta_id` / `extracted_at` are the metadata dict. -/
structure Recital where
  recital_number : String
  text : String
  meta_id : String
  extracted_at : String
deriving DecidableEq, Repr

/-- `re.match(r'\((\d+)\)', text)`: returns the digits and the remainder
of the string after the match. -/
def parseRecitalNumber (s : String) : Option (String × String) :=
  match s.toList with
  | '(' :: rest =>
    let d := rest.takeWhile Char.isDigit
    let r := rest.dropWhile Char.isDigit
    if d = [] then none else
    match r with
    | ')' :: r2 => some (String.mk d, String.mk r2)
    | _ => none
  | _ => none

/-- The per-element body of `_extract_recitals`: skip elements without a
`p.oj-normal` or whose first text does not match `\((\d+)\)`; otherwise
build the recital text from the de-numbered first text and the
space-joined remaining texts, normalized. -/
def recitalItem (t : String) (ri : RecitalInput) : Option Recital :=
  match ri.ps with
  | [] => none
  | text :: restPs =>
    match parseRecitalNumber text with
    | none => none
    | some (num, after) =>
      let firstText := pyStrip after
      let remaining := joinSep " " restPs
      let full := if remaining ≠ "" then firstText ++ " " ++ remaining else firstText
      some ⟨num, normalizeText full, ri.elemId, t⟩

/-- `EURegulationAnalyzer._extract_recitals`: collect the parsed
recitals and sort ascending by the integer value of the recital
number. -/
def extractRecitals (t : String) (rs : List RecitalInput) : List Recital :=
  sortByKey (fun r => (String.toNat? r.recital_number).getD 0) (rs.filterMap (recitalItem t))

/-- A chapter dict.  `_extract_chapters` reads no clock and is a plain
tree walk; its result is taken as input here. -/
structure Chapter where
  chapter_number : Nat
  title : String
  article_numbers : List Nat
  order_index : Nat
deriving DecidableEq, Repr

/-- One article `div.eli-subdivision` element, as seen by
`_extract_articles` and `_extract_paragraphs`: the article number (from
`p.oj-ti-art`), the raw `p.oj-sti-art` title text, and the inputs of
`_extract_paragraphs`. -/
structure ArticleInput where
  article_number : Nat
  titleRaw : Option String
  introP : Option String
  defTables : List (List (List Cell))
  elements : List PElem
deriving DecidableEq, Repr

/-- An article dict; `is_definitions` / `extracted_at` are the metadata
dict. -/
structure Article where
  article_number : Nat
  title : String
  paragraphs : List Paragraph
  content_full : String
  order_index : Nat
  is_definitions : Bool
  extracted_at : String
deriving DecidableEq, Repr

/-- The per-element body of `_extract_articles`: normalize the title,
extract the paragraphs, and join the non-empty paragraph texts into
`content_full`. -/
def extractArticle (t : String) (ai : ArticleInput) : Article :=
  let title := (ai.titleRaw.map normalizeText).getD ""
  let paras := extractParagraphs t title ai.introP ai.defTables ai.elements
  let contentFull := joinSep "\n\n" ((paras.map (fun p => p.content_full)).filter (fun s => s ≠ ""))
  ⟨ai.article_number, title, paras, contentFull, ai.article_number,
    isDefinitionArticle title, t⟩

/-- `EURegulationAnalyzer._extract_articles`: one article per element,
sorted by article number. -/
def extractArticles (t : String) (ais : List ArticleInput) : List Article :=
  sortByKey (fun a => a.article_number) (ais.map (extractArticle t))

/-- The `data` dict assembled by `save_structured_data`. -/
structure Document where
  metaTitle : String
  extracted_at : String
  recitals : List Recital
  chapters : List Chapter
  articles : List Article
  annexes : List Annex
deriving DecidableEq, Repr

/-- `save_structured_data`: run the four extractors over one downloaded
document and assemble the output dict; `t` stands for the
`datetime.now().isoformat()` timestamps taken during the run. -/
def buildDocument (name t : String) (rs : List RecitalInput) (chs : List Chapter)
    (ais : List ArticleInput) (annexFrags : List (String × List AnnexSection)) :
    Document :=
  ⟨name, t, extractRecitals t rs, chs, extractArticles t ais, extractAnnexes annexFrags⟩

/-! Erasure of the `extracted_at` timestamps, for stating what of the
output is determined by the input alone. -/

/-- Blank the `extracted_at` entry of a paragraph metadata dict. -/
def stripParagraphTs (p : Paragraph) : Paragraph :=
  { p with metadata := p.metadata.map (fun kv =>
      if kv.1 = "extracted_at" then (kv.1, "") else kv) }

/-- Blank an article's timestamps. -/
def stripArticleTs (a : Article) : Article :=
  { a with extracted_at := "", paragraphs := a.paragraphs.map stripParagraphTs }

/-- Blank a recital's timestamp. -/
def stripRecitalTs (r : Recital) : Recital :=
  { r with extracted_at := "" }

/-- Blank every `extracted_at` in a document. -/
def stripDocumentTs (d : Document) : Document :=
  { d with
    extracted_at := ""
    recitals := d.recitals.map stripRecitalTs
    articles := d.articles.map stripArticleTs }

/-! ## Definitions used only to state claims -/

/-- The reconstruction rule stated by the specification for
`content_full`: chapeau items verbatim, subparagraph/definition items as
`"(<element_id>) <content>"`. -/
def renderItemClaim (it : ContentItem) : String :=
  if it.type = "chapeau" then it.content
  else "(" ++ it.element_id.getD "" ++ ") " ++ it.content

/-- The specification's reconstruction of `content_full` from the
ordered contents, joined with blank lines. -/
def reconstructFull (items : List ContentItem) : String :=
  joinSep "\n\n" (items.map renderItemClaim)

/-- The feed sequence claimed by the specification for step 6 of annex
extraction: orphan markers joined onto the next non-empty node's text,
every other node's text fed exactly once, in document order (i.e. the
pre-processed buffer itself, with empty entries skipped). -/
def claimedFeed (nodes : List String) : List String :=
  (preprocessOrphanNumbers nodes).filter (fun t => t ≠ "")

/-- Invariant of the `_parse_paragraph` item-collection state
`(trace, processed_texts, order_index)`: items pair `element_id` with
`subparagraph_id`; order indices are the consecutive run `1, 2, ...`;
the counter continues from the last index; every recorded raw text is in
`processed_texts`; and the recorded raw texts are pairwise distinct. -/
def TraceInv (st : List (String × ContentItem) × List String × Nat) : Prop :=
  (∀ x ∈ st.1, x.2.element_id = x.2.subparagraph_id) ∧
  st.1.map (fun x => x.2.order_index) = List.range' 1 st.1.length ∧
  st.2.2 = 1 + st.1.length ∧
  (∀ x ∈ st.1, x.1 ∈ st.2.1) ∧
  (st.1.map Prod.fst).Nodup

/-- A paragraph-collection step either leaves the state unchanged or
appends one item recorded under a fresh raw text, with the running
index. -/
def StepAppends (step : List (String × ContentItem) × List String × Nat → α →
    List (String × ContentItem) × List String × Nat) : Prop :=
  ∀ st a, step st a = st ∨
    ∃ r it, r ∉ st.2.1 ∧ it.order_index = st.2.2 ∧
      it.element_id = it.subparagraph_id ∧
      step st a = (st.1 ++ [(r, it)], st.2.1 ++ [r], st.2.2 + 1)

/-- Invariant of the definitions-branch accumulation state
`(ordered_contents, content_parts, order_index)`: the parts list is the
item-by-item rendering, indices are consecutive from 1, and every item
is a definition with an identifier or the single leading chapeau. -/
def DefBranchInv (st : List ContentItem × List String × Nat) : Prop :=
  st.1.map renderItemClaim = st.2.1 ∧
  st.1.map (fun it => it.order_index) = List.range' 1 st.1.length ∧
  st.2.2 = 1 + st.1.length ∧
  (∀ it ∈ st.1, (it.type = "definition" ∧ it.element_id ≠ none) ∨
    (it.type = "chapeau" ∧ it.element_id = none))

/-- The per-paragraph property used for the `content_full` round-trip:
the stored text equals the specification's reconstruction and the
ordered contents are non-empty. -/
def ParaOK (p : Paragraph) : Prop :=
  p.content_full = reconstructFull p.ordered_contents ∧ p.ordered_contents ≠ []

/-- Invariant of the numbered-paragraph loop: every closed paragraph and
the open one satisfy `ParaOK`. -/
def LoopOK (st : List Paragraph × Option Paragraph) : Prop :=
  (∀ p ∈ st.1, ParaOK p) ∧ (∀ p, st.2 = some p → ParaOK p)

/-! ## Shared helper lemmas -/

theorem checkNoDupsAux_spec (l : List String) :
    ∀ seen, checkNoDupsAux seen l = true → l.Nodup ∧ ∀ x ∈ l, x ∉ seen := by
  induction l with
  | nil => intro seen _; simp
  | cons x xs ih =>
    intro seen h
    by_cases hx : x ∈ seen
    · simp [checkNoDupsAux, hx] at h
    · rw [checkNoDupsAux, if_neg hx] at h
      obtain ⟨hnd, hmem⟩ := ih (x :: seen) h
      refine ⟨List.nodup_cons.2 ⟨fun hxs => ?_, hnd⟩, ?_⟩
      · exact hmem x hxs (List.mem_cons_self x seen)
      · intro y hy
        rcases List.mem_cons.1 hy with rfl | hy'
        · exact hx
        · intro hys
          exact hmem y hy' (List.mem_cons_of_mem x hys)

theorem checkNoDups_nodup {l : List String} (h : checkNoDups l = true) : l.Nodup :=
  (checkNoDupsAux_spec l [] h).1

theorem joinSep_append (sep : String) (l1 l2 : List String)
    (h1 : l1 ≠ []) (h2 : l2 ≠ []) :
    joinSep sep (l1 ++ l2) = joinSep sep l1 ++ sep ++ joinSep sep l2 := by
  induction l1 with
  | nil => exact absurd rfl h1
  | cons x xs ih =>
    cases xs with
    | nil =>
      cases l2 with
      | nil => exact absurd rfl h2
      | cons y ys => simp [joinSep]
    | cons z zs =>
      have := ih (by simp)
      simp only [List.cons_append, List.append_eq, joinSep] at this ⊢
      rw [this]
      simp [String.append_assoc]

/-! ## C1: annex and section identifier uniqueness -/

/-- C1.  For the list of annexes returned by `_extract_annexes`, the
annex identifiers are pairwise distinct, and within every single annex
the `section_id`s of its sections are pairwise distinct.  The returned
list is either empty (the final `_validate_annex_uniqueness` raised, the
outer handler returned `[]`) or it passed that validation, which checks
exactly these two properties. -/
theorem extractAnnexes_ids_nodup (frags : List (String × List AnnexSection)) :
    ((extractAnnexes frags).map (fun a => a.annex_id)).Nodup ∧
    ∀ a ∈ extractAnnexes frags, (a.sections.map (fun s => s.section_id)).Nodup := by
  unfold extractAnnexes
  by_cases h : validateAnnexUniqueness (sortAnnexes (buildAnnexList frags)) = true
  · rw [if_pos h]
    unfold validateAnnexUniqueness at h
    rw [Bool.and_eq_true] at h
    refine ⟨checkNoDups_nodup h.1, ?_⟩
    intro a ha
    have := (List.all_eq_true).1 h.2 a ha
    exact checkNoDups_nodup this
  · rw [if_neg h]
    simp

/-- Witness for C1 at a concrete two-annex input. -/
theorem extractAnnexes_ids_nodup_witness :
    ((extractAnnexes [("I", [⟨"1", "", "ordered", ["x"], [], []⟩]),
        ("II", [⟨"1", "", "ordered", ["y"], [], []⟩])]).map (fun a => a.annex_id)).Nodup ∧
    (((⟨"I", "ANNEX I", "", [⟨"1", "", "ordered", ["x"], [], []⟩], 1⟩ : Annex).sections.map
        (fun s => s.section_id)).Nodup) := by
  have h := extractAnnexes_ids_nodup [("I", [⟨"1", "", "ordered", ["x"], [], []⟩]),
    ("II", [⟨"1", "", "ordered", ["y"], [], []⟩])]
  exact ⟨h.1, h.2 _ (by decide)⟩

/-! ## C2: merge by annex identifier -/

theorem buildAnnexList_pair (i : String) (s1 s2 : List AnnexSection) :
    buildAnnexList [(i, s1), (i, s2)] =
      [⟨i, "ANNEX " ++ i, "", mergeSections s1 s2, 1⟩] := by
  simp [buildAnnexList, buildAnnexListAux, updateFirst]

/-- C2 (amended).  Two annex fragments resolving to the same identifier
yield a single annex entry whose section list is `_merge_sections` of
the two fragments' section lists (new section ids appended; matching
ids merged item/subsection/table-wise, where a table is skipped when an
existing table has the same caption and the same number of rows), under
the hypothesis that the merged annex passes the final uniqueness
validation. -/
theorem sameId_fragments_merge (i : String) (s1 s2 : List AnnexSection)
    (h : validateAnnexUniqueness [⟨i, "ANNEX " ++ i, "", mergeSections s1 s2, 1⟩] = true) :
    extractAnnexes [(i, s1), (i, s2)] =
      [⟨i, "ANNEX " ++ i, "", mergeSections s1 s2, 1⟩] := by
  unfold extractAnnexes
  rw [buildAnnexList_pair]
  have hs : sortAnnexes [(⟨i, "ANNEX " ++ i, "", mergeSections s1 s2, 1⟩ : Annex)] =
      [⟨i, "ANNEX " ++ i, "", mergeSections s1 s2, 1⟩] := rfl
  rw [hs, if_pos h]

/-- Witness for C2 (amended) at two concrete fragments. -/
theorem sameId_fragments_merge_witness :
    extractAnnexes [("I", [⟨"1", "h", "ordered", ["x"], [], []⟩]),
        ("I", [⟨"2", "g", "ordered", ["y"], [], []⟩])] =
      [⟨"I", "ANNEX " ++ "I", "",
        mergeSections [⟨"1", "h", "ordered", ["x"], [], []⟩]
          [⟨"2", "g", "ordered", ["y"], [], []⟩], 1⟩] :=
  sameId_fragments_merge "I" [⟨"1", "h", "ordered", ["x"], [], []⟩]
    [⟨"2", "g", "ordered", ["y"], [], []⟩] (by decide)

/-- Counterexample to C2 as stated: a second-fragment table that is not
an exact duplicate (same caption, same row count, different rows) is
nevertheless skipped by `_merge_section_tables`, so the merged annex
does not contain the union of tables with only exact duplicates
removed. -/
theorem mergeTables_drop_nonidentical :
    (extractAnnexes [("I", [⟨"1", "h", "ordered", ["x"], [], [⟨"", [[("a", "b")]]⟩]⟩]),
        ("I", [⟨"1", "h", "ordered", ["x"], [], [⟨"", [[("a", "c")]]⟩]⟩])]).map
      (fun a => a.sections.map (fun s => s.tables)) = [[[⟨"", [[("a", "b")]]⟩]]] ∧
    (⟨"", [[("a", "c")]]⟩ : AnnexTable) ≠ ⟨"", [[("a", "b")]]⟩ := by
  decide

/-! ## C3: which structural-invariant violations abort -/

/-- C3 (amended).  A duplicate section identifier within an annex (or a
duplicate annex identifier) makes `_validate_annex_uniqueness` raise,
and annex extraction then returns no annexes at all; the empty-or-dash
item rule of `_validate_annex`, by contrast, is caught and logged at
its call site (see the counterexample). -/
theorem uniqueness_violation_aborts (frags : List (String × List AnnexSection))
    (h : validateAnnexUniqueness (sortAnnexes (buildAnnexList frags)) = false) :
    extractAnnexes frags = [] := by
  unfold extractAnnexes
  simp only [h]
  simp

/-- Witness for C3 (amended): a fragment with a duplicated section id
makes extraction return nothing. -/
theorem uniqueness_violation_aborts_witness :
    extractAnnexes [("I", [⟨"A", "h", "ordered", ["x"], [], []⟩,
        ⟨"A", "g", "ordered", ["y"], [], []⟩])] = [] :=
  uniqueness_violation_aborts
    [("I", [⟨"A", "h", "ordered", ["x"], [], []⟩, ⟨"A", "g", "ordered", ["y"], [], []⟩])]
    (by decide)

/-- Counterexample to C3 as stated: an annex whose only item is a bare
dash — which `_validate_annex` rejects — is returned anyway, because the
call site catches the `ValueError` and only logs it. -/
theorem dash_item_is_returned :
    extractAnnexes [("I", [⟨"1", "h", "ordered", ["—"], [], []⟩])] =
      [⟨"I", "ANNEX I", "", [⟨"1", "h", "ordered", ["—"], [], []⟩], 1⟩] ∧
    validateAnnexOk ⟨"I", "ANNEX I", "", [⟨"1", "h", "ordered", ["—"], [], []⟩], 1⟩ = false := by
  decide

/-! ## C4: orphan-number pre-processing -/

/-- C4 (evaluation at the failing input).  For the three `p` nodes
"3.", "B", "C": the pre-processed buffer is `["3. B", "C"]` as the
claim describes, but the feeding loop indexes that buffer by node
position (`processed_texts[i] if i < len(processed_texts) else ...`),
so node 1 is fed "C" and node 2 falls back to its own normalized text
"C" again — "C" reaches the `SectionBuilder` twice. -/
theorem orphan_feed_misalignment :
    fedTexts ["3.", "B", "C"] = ["3. B", "C", "C"] ∧
    claimedFeed ["3.", "B", "C"] = ["3. B", "C"] := by
  decide

/-! ## C5: Section-letter headers in `feed_text` -/

/-- Counterexample to C5 as stated: it is not the case that a
Section-letter header whose letter key already exists leaves the number
of sections unchanged — `feed_text` always appends a fresh section. -/
theorem section_header_reuse_refuted :
    ¬ (∀ (st : BuilderState) (txt : String) (l : Char) (hd : String),
        parseSectionAB (pyStrip txt) = some (l, hd) →
        (∃ s ∈ st.sections, s.section_id = String.mk [l]) →
        (feedText st txt).sections.length = st.sections.length) := by
  intro hcl
  have h := hcl (feedText initBuilder "Section A. Foo") "Section A. Bar" 'A' "Bar"
    (by decide) (by decide)
  exact absurd h (by decide)

/-- C5 (amended).  A Section-letter header line always starts a new
current section keyed by the letter and appends it to the section list,
even when a section with that key already exists (the existing-section
lookup is not consulted in this branch); the current subsection is
reset in all cases. -/
theorem section_header_always_appends (st : BuilderState) (txt : String) (l : Char)
    (hd : String) (hm : parseSectionAB (pyStrip txt) = some (l, hd)) :
    feedText st txt = ⟨st.sections ++ [⟨String.mk [l], hd, "ordered", [], [], []⟩],
      some st.sections.length, none⟩ := by
  have hne : pyStrip txt ≠ "" := by
    intro he
    rw [he, show parseSectionAB "" = none from rfl] at hm
    exact Option.noConfusion hm
  have hb1 : pyStrip txt ≠ "—" := by
    intro he
    rw [he, show parseSectionAB "—" = none from rfl] at hm
    exact Option.noConfusion hm
  have hb2 : pyStrip txt ≠ "-" := by
    intro he
    rw [he, show parseSectionAB "-" = none from rfl] at hm
    exact Option.noConfusion hm
  have hb3 : pyStrip txt ≠ "•" := by
    intro he
    rw [he, show parseSectionAB "•" = none from rfl] at hm
    exact Option.noConfusion hm
  unfold feedText
  rw [if_neg hne]
  rw [if_neg (by simp [hb1, hb2, hb3])]
  rw [hm]

/-- Witness for C5 (amended) at a concrete header line. -/
theorem section_header_always_appends_witness :
    feedText initBuilder "Section A. Foo" =
      ⟨initBuilder.sections ++ [⟨String.mk ['A'], "Foo", "ordered", [], [], []⟩],
        some initBuilder.sections.length, none⟩ :=
  section_header_always_appends initBuilder "Section A. Foo" 'A' "Foo" (by decide)

/-! ## C6: definitions articles -/

theorem range'_one_concat (n : Nat) :
    List.range' 1 (n + 1) = List.range' 1 n ++ [1 + n] := by
  rw [List.range'_concat]
  simp

theorem defItemStep_inv {st : List ContentItem × List String × Nat}
    (sp : ContentItem) (h : DefBranchInv st) : DefBranchInv (defItemStep st sp) := by
  obtain ⟨cs, ps, idx⟩ := st
  obtain ⟨h1, h2, h3, h4⟩ := h
  simp only [DefBranchInv, defItemStep] at *
  refine ⟨?_, ?_, ?_, ?_⟩
  · rw [List.map_append, h1]
    simp [renderItemClaim]
  · rw [List.map_append, h2, List.length_append]
    simp only [List.length_singleton]
    rw [range'_one_concat]
    simp [h3]
  · rw [List.length_append]
    simp only [List.length_singleton]
    omega
  · intro it hit
    rcases List.mem_append.1 hit with hold | hnew
    · exact h4 it hold
    · rcases List.mem_singleton.1 hnew with rfl
      exact Or.inl ⟨rfl, by simp⟩

theorem defFold_inner_inv (sps : List ContentItem) :
    ∀ st, DefBranchInv st → DefBranchInv (sps.foldl defItemStep st) := by
  induction sps with
  | nil => intro st h; exact h
  | cons sp rest ih =>
    intro st h
    exact ih _ (defItemStep_inv sp h)

theorem defFold_outer_inv (tables : List (List (List Cell))) :
    ∀ st, DefBranchInv st →
      DefBranchInv (tables.foldl (fun st table =>
        (parseSubparagraphs (some "Definitions") table).foldl defItemStep st) st) := by
  induction tables with
  | nil => intro st h; exact h
  | cons table rest ih =>
    intro st h
    exact ih _ (defFold_inner_inv _ _ h)

theorem defBranchBase_inv (introText : Option String) :
    DefBranchInv (defBranchBase introText) := by
  cases introText with
  | none =>
    refine ⟨rfl, rfl, rfl, ?_⟩
    intro it hit
    exact absurd hit (List.not_mem_nil it)
  | some s =>
    refine ⟨rfl, rfl, rfl, ?_⟩
    intro it hit
    rcases List.mem_singleton.1 hit with rfl
    exact Or.inr ⟨rfl, rfl⟩

theorem defBranch_spec (t : String) (introText : Option String)
    (dts : List (List (List Cell))) :
    (extractParagraphsDefBranch t introText dts).paragraph_number = some "1" ∧
    (extractParagraphsDefBranch t introText dts).content_full =
      reconstructFull (extractParagraphsDefBranch t introText dts).ordered_contents ∧
    ((extractParagraphsDefBranch t introText dts).ordered_contents.map
        (fun it => it.order_index) =
      List.range' 1 (extractParagraphsDefBranch t introText dts).ordered_contents.length) ∧
    ∀ it ∈ (extractParagraphsDefBranch t introText dts).ordered_contents,
      (it.type = "definition" ∧ it.element_id ≠ none) ∨
      (it.type = "chapeau" ∧ it.element_id = none) := by
  have hinv := defFold_outer_inv dts (defBranchBase introText) (defBranchBase_inv introText)
  obtain ⟨h1, h2, _, h4⟩ := hinv
  exact ⟨rfl, (congrArg (joinSep "\n\n") h1).symm, h2, h4⟩

/-- C6 (amended).  For an article whose title contains "definition"
(case-insensitively) and that has at least one direct-child table,
extraction yields exactly one paragraph, with `paragraph_number` "1";
its content items are `definition` items carrying a non-null
`element_id`, except for a possible leading chapeau (from leading
non-numbered prose), which carries none.  (The claim's stronger form —
every item is a definition — fails whenever such intro prose exists;
see the counterexample.) -/
theorem definitions_article_single_paragraph (t title : String) (introP : Option String)
    (dts : List (List (List Cell))) (els : List PElem)
    (hdef : isDefinitionArticle title = true) (hne : dts ≠ []) :
    (extractParagraphs t title introP dts els).length = 1 ∧
    ∀ p ∈ extractParagraphs t title introP dts els,
      p.paragraph_number = some "1" ∧
      ∀ it ∈ p.ordered_contents,
        (it.type = "definition" ∧ it.element_id ≠ none) ∨
        (it.type = "chapeau" ∧ it.element_id = none) := by
  have hcond : (isDefinitionArticle title = true ∧ dts ≠ []) := ⟨hdef, hne⟩
  unfold extractParagraphs
  rw [if_pos hcond]
  refine ⟨rfl, ?_⟩
  intro p hp
  rcases List.mem_singleton.1 hp with rfl
  obtain ⟨hn, _, _, hitems⟩ := defBranch_spec t _ dts
  exact ⟨hn, hitems⟩

/-- Witness for C6 (amended) at the claim's scenario (one table, one
row keyed "(a)", no intro prose). -/
theorem definitions_article_single_paragraph_witness :
    ((extractParagraphs "T" "Definitions" none
        [[[⟨"(a)", some "(a)"⟩, ⟨"c means x", some "c means x"⟩]]] []).length = 1 ∧
      ∀ p ∈ extractParagraphs "T" "Definitions" none
          [[[⟨"(a)", some "(a)"⟩, ⟨"c means x", some "c means x"⟩]]] [],
        p.paragraph_number = some "1" ∧
        ∀ it ∈ p.ordered_contents,
          (it.type = "definition" ∧ it.element_id ≠ none) ∨
          (it.type = "chapeau" ∧ it.element_id = none)) ∧
    extractParagraphs "T" "Definitions" none
        [[[⟨"(a)", some "(a)"⟩, ⟨"c means x", some "c means x"⟩]]] [] =
      [⟨some "1", [⟨"definition", some "a", some "a", "c means x", 1⟩],
        "(a) c means x", [("extracted_at", "T"), ("is_definitions", "True")]⟩] :=
  ⟨definitions_article_single_paragraph "T" "Definitions" none
      [[[⟨"(a)", some "(a)"⟩, ⟨"c means x", some "c means x"⟩]]] []
      (by decide) (by decide),
    by decide⟩

/-- Counterexample to C6 as stated: a definitions article with leading
intro prose yields a paragraph whose first content item is a chapeau,
not a definition. -/
theorem definitions_article_chapeau_cex :
    (extractParagraphs "T" "Definitions" (some "For the purposes:")
        [[[⟨"(a)", some "(a)"⟩, ⟨"c means x", some "c means x"⟩]]] []).map
      (fun p => p.ordered_contents.map (fun it => it.type)) =
      [["chapeau", "definition"]] ∧
    ("chapeau" : String) ≠ "definition" := by
  decide

/-! ## The item-collection invariant of `_parse_paragraph`
(shared by C7, C8, C10) -/

theorem rowStep_appends (isDef : Bool) : StepAppends (rowStep isDef) := by
  intro st row
  obtain ⟨tr, procs, idx⟩ := st
  rcases row with _ | ⟨c0, _ | ⟨c1, _ | ⟨c2, rest⟩⟩⟩
  · left; rfl
  · left; rfl
  · by_cases hc : pyStrip c1.rawText ∈ procs
    · left
      simp [rowStep, hc]
    · right
      refine ⟨pyStrip c1.rawText,
        ⟨if isDef then "definition" else "subparagraph",
          some (removeParens (pyStrip c0.rawText)),
          some (removeParens (pyStrip c0.rawText)),
          normalizeText (pyStrip c1.rawText), idx⟩,
        hc, rfl, rfl, ?_⟩
      simp [rowStep, hc]
  · left; rfl

theorem otherPStep_appends : StepAppends otherPStep := by
  intro st p
  obtain ⟨tr, procs, idx⟩ := st
  by_cases hc : pyStrip p ≠ "" ∧ pyStrip p ∉ procs
  · right
    exact ⟨pyStrip p, ⟨"chapeau", none, none, normalizeText (pyStrip p), idx⟩,
      hc.2, rfl, rfl, by simp [otherPStep, hc]⟩
  · left
    simp [otherPStep, hc]

theorem stepAppends_inv_one {α} {step : List (String × ContentItem) × List String × Nat →
    α → List (String × ContentItem) × List String × Nat}
    (hstep : StepAppends step) (st : List (String × ContentItem) × List String × Nat)
    (a : α) (h : TraceInv st) : TraceInv (step st a) := by
  rcases hstep st a with heq | ⟨r, it, hr, hord, heid, heq⟩
  · rw [heq]; exact h
  · rw [heq]
    obtain ⟨h1, h2, h3, h4, h5⟩ := h
    refine ⟨?_, ?_, ?_, ?_, ?_⟩
    · intro x hx
      rcases List.mem_append.1 hx with hx | hx
      · exact h1 x hx
      · rcases List.mem_singleton.1 hx with rfl
        exact heid
    · rw [List.map_append, h2, List.length_append]
      simp only [List.length_singleton, List.map_cons, List.map_nil]
      rw [range'_one_concat]
      rw [hord, h3]
    · simp only [List.length_append, List.length_singleton]
      omega
    · intro x hx
      rcases List.mem_append.1 hx with hx | hx
      · exact List.mem_append_left _ (h4 x hx)
      · rcases List.mem_singleton.1 hx with rfl
        exact List.mem_append_right _ (List.mem_singleton_self r)
    · rw [List.map_append]
      refine List.nodup_append.2 ⟨h5, by simp, ?_⟩
      intro a ha hb
      simp only [List.map_cons, List.map_nil, List.mem_singleton] at hb
      subst hb
      rcases List.mem_map.1 ha with ⟨x, hx, hfx⟩
      exact hr (hfx ▸ h4 x hx)

theorem stepAppends_inv_fold {α} {step : List (String × ContentItem) × List String × Nat →
    α → List (String × ContentItem) × List String × Nat}
    (hstep : StepAppends step) (l : List α) :
    ∀ st, TraceInv st → TraceInv (l.foldl step st) := by
  induction l with
  | nil => intro st h; exact h
  | cons a rest ih =>
    intro st h
    exact ih _ (stepAppends_inv_one hstep st a h)

theorem traceInv_nil :
    TraceInv (([], [], 1) : List (String × ContentItem) × List String × Nat) := by
  refine ⟨?_, rfl, rfl, ?_, List.nodup_nil⟩ <;>
    (intro x hx; exact absurd hx (List.not_mem_nil x))

theorem parseParagraphStartNum_inv (res : Option (String × String)) :
    TraceInv (parseParagraphStartNum res).2 := by
  rcases res with _ | ⟨n, rest⟩
  · exact traceInv_nil
  · simp only [parseParagraphStartNum]
    by_cases ht : pyStrip rest ≠ ""
    · rw [if_pos ht]
      refine ⟨?_, rfl, rfl, ?_, ?_⟩
      · intro x hx
        rcases List.mem_singleton.1 hx with rfl
        rfl
      · intro x hx
        rcases List.mem_singleton.1 hx with rfl
        exact List.mem_singleton_self _
      · simp
    · rw [if_neg ht]
      exact traceInv_nil

theorem parseParagraphStart_inv (el : PElem) : TraceInv (parseParagraphStart el).2 := by
  unfold parseParagraphStart
  rcases el.firstP with _ | fp
  · exact traceInv_nil
  · exact parseParagraphStartNum_inv (matchNumDot true fp)

theorem parseParagraph_state_inv (isDef : Bool) (el : PElem) :
    TraceInv (el.otherPs.foldl otherPStep
      (el.tableRows.foldl (rowStep isDef) (parseParagraphStart el).2)) :=
  stepAppends_inv_fold otherPStep_appends el.otherPs _
    (stepAppends_inv_fold (rowStep_appends isDef) el.tableRows _
      (parseParagraphStart_inv el))

/-! ## C10: duplicate raw texts are suppressed inside one
`_parse_paragraph` call -/

/-- C10.  Within a single `_parse_paragraph` call, the raw fragment
texts recorded for the produced content items (the texts checked
against and inserted into the `processed_texts` set) are pairwise
distinct, and the returned paragraph's ordered contents are exactly the
items of that trace — so no two content items of the returned paragraph
derive from identical raw source texts. -/
theorem parseParagraph_dedup (isDef : Bool) (el : PElem) :
    ((parseParagraphTrace isDef el).map Prod.fst).Nodup ∧
    ∀ p, parseParagraph isDef el = some p →
      p.ordered_contents = (parseParagraphTrace isDef el).map Prod.snd := by
  refine ⟨(parseParagraph_state_inv isDef el).2.2.2.2, ?_⟩
  intro p hp
  simp only [parseParagraph] at hp
  split at hp
  · exact Option.noConfusion hp
  · simp only [Option.some.injEq] at hp
    rw [← hp]

/-- Witness for C10 at a concrete element with two table rows carrying
identical raw content (the second row yields no item). -/
theorem parseParagraph_dedup_witness :
    ((parseParagraphTrace false ⟨false, "1. Head", "1. Head", some "1. Head",
        [[⟨"(a)", some "(a)"⟩, ⟨"same text", some "same text"⟩],
          [⟨"(b)", some "(b)"⟩, ⟨"same text", some "same text"⟩]], []⟩).map
      Prod.fst).Nodup ∧
    (⟨some "1",
        [⟨"chapeau", none, none, "Head", 1⟩,
          ⟨"subparagraph", some "a", some "a", "same text", 2⟩],
        "Head\n\n(a) same text",
        [("total_elements", "2"), ("chapeau_count", "1"),
          ("subparagraph_count", "1")]⟩ : Paragraph).ordered_contents =
      (parseParagraphTrace false ⟨false, "1. Head", "1. Head", some "1. Head",
        [[⟨"(a)", some "(a)"⟩, ⟨"same text", some "same text"⟩],
          [⟨"(b)", some "(b)"⟩, ⟨"same text", some "same text"⟩]], []⟩).map
        Prod.snd := by
  have h := parseParagraph_dedup false ⟨false, "1. Head", "1. Head", some "1. Head",
    [[⟨"(a)", some "(a)"⟩, ⟨"same text", some "same text"⟩],
      [⟨"(b)", some "(b)"⟩, ⟨"same text", some "same text"⟩]], []⟩
  exact ⟨h.1, h.2 _ (by decide)⟩

/-! ## C7: `content_full` round-trip -/

theorem renderItem_eq (it : ContentItem) (h : it.element_id = it.subparagraph_id) :
    renderItemCode it = renderItemClaim it := by
  unfold renderItemCode renderItemClaim
  by_cases ht : it.type = "chapeau"
  · rw [if_pos ht, if_pos ht]
  · rw [if_neg ht, if_neg ht, h]

/-- Any paragraph produced by `_parse_paragraph` satisfies the
round-trip property, with non-empty contents. -/
theorem parseParagraph_ok (isDef : Bool) (el : PElem) (p : Paragraph)
    (h : parseParagraph isDef el = some p) : ParaOK p := by
  have hinv := parseParagraph_state_inv isDef el
  have heid : ∀ it ∈ (parseParagraphTrace isDef el).map Prod.snd,
      it.element_id = it.subparagraph_id := by
    intro it hit
    rcases List.mem_map.1 hit with ⟨x, hx, rfl⟩
    exact hinv.1 x hx
  simp only [parseParagraph] at h
  split at h
  · exact Option.noConfusion h
  · rename_i hne
    simp only [Option.some.injEq] at h
    subst h
    refine ⟨?_, hne⟩
    show contentFullCode _ = reconstructFull _
    unfold contentFullCode reconstructFull
    congr 1
    exact List.map_congr_left (fun it hit => renderItem_eq it (heid it hit))

theorem extendParagraph_ok {cp parsed : Paragraph}
    (h1 : ParaOK cp) (h2 : ParaOK parsed) : ParaOK (extendParagraph cp parsed) := by
  obtain ⟨e1, n1⟩ := h1
  obtain ⟨e2, n2⟩ := h2
  constructor
  · show cp.content_full ++ "\n\n" ++ parsed.content_full = reconstructFull _
    unfold reconstructFull
    show _ = joinSep "\n\n" ((cp.ordered_contents ++ parsed.ordered_contents).map renderItemClaim)
    rw [List.map_append, joinSep_append "\n\n" _ _
        (by simpa using n1) (by simpa using n2)]
    rw [e1, e2]
    rfl
  · show cp.ordered_contents ++ parsed.ordered_contents ≠ []
    simp [n1]

theorem numberedStep_ok (isDef : Bool) (st : List Paragraph × Option Paragraph)
    (e : PElem) (h : LoopOK st) : LoopOK (numberedStep isDef st e) := by
  obtain ⟨paras, cur⟩ := st
  obtain ⟨hps, hcur⟩ := h
  simp only [numberedStep]
  by_cases h0 : e.strippedText = ""
  · rw [if_pos h0]
    exact ⟨hps, hcur⟩
  · rw [if_neg h0]
    by_cases h1 : (matchNumDot false e.strippedText).isSome = true
    · rw [if_pos h1]
      constructor
      · intro p hp
        cases cur with
        | none => exact hps p hp
        | some cp =>
          rcases List.mem_append.1 hp with hp | hp
          · exact hps p hp
          · rcases List.mem_singleton.1 hp with rfl
            exact hcur p rfl
      · intro p hp
        exact parseParagraph_ok isDef e p hp
    · rw [if_neg h1]
      cases cur with
      | none => exact ⟨hps, hcur⟩
      | some cp =>
        cases hpp : parseParagraph isDef e with
        | none => exact ⟨hps, hcur⟩
        | some parsed =>
          show LoopOK (if parsed.ordered_contents ≠ [] then
            (paras, some (extendParagraph cp parsed)) else (paras, some cp))
          by_cases hne : parsed.ordered_contents ≠ []
          · rw [if_pos hne]
            refine ⟨hps, ?_⟩
            intro p hp
            rcases Option.some.injEq _ _ ▸ hp with rfl
            exact extendParagraph_ok (hcur cp rfl) (parseParagraph_ok isDef e parsed hpp)
          · rw [if_neg hne]
            exact ⟨hps, hcur⟩

theorem numberedFold_ok (isDef : Bool) (els : List PElem) :
    ∀ st, LoopOK st → LoopOK (els.foldl (numberedStep isDef) st) := by
  induction els with
  | nil => intro st h; exact h
  | cons e rest ih =>
    intro st h
    exact ih _ (numberedStep_ok isDef st e h)

/-- C7.  For every paragraph emitted by `_extract_paragraphs`, the
stored `content_full` equals the string reconstructed from the ordered
contents in order: chapeau items verbatim, subparagraph/definition
items as `"(<element_id>) <content>"`, joined with blank lines — also
for paragraphs assembled from several source fragments. -/
theorem content_full_roundtrip (t title : String) (introP : Option String)
    (dts : List (List (List Cell))) (els : List PElem) :
    ∀ p ∈ extractParagraphs t title introP dts els,
      p.content_full = reconstructFull p.ordered_contents := by
  intro p hp
  simp only [extractParagraphs] at hp
  split at hp
  · rcases List.mem_singleton.1 hp with rfl
    exact (defBranch_spec t _ dts).2.1
  · split at hp
    · split at hp
      · rcases List.mem_singleton.1 hp with rfl
        rfl
      · exact absurd hp (List.not_mem_nil p)
    · have hloop := numberedFold_ok (isDefinitionArticle title) els ([], none)
        ⟨fun q hq => absurd hq (List.not_mem_nil q), fun q hq => Option.noConfusion hq⟩
      obtain ⟨hps, hcur⟩ := hloop
      rcases List.mem_append.1 hp with hp | hp
      · exact (hps p hp).1
      · rcases hfin : (els.foldl (numberedStep (isDefinitionArticle title)) ([], none)).2 with
          _ | cp
        · rw [hfin] at hp
          exact absurd hp (List.not_mem_nil p)
        · rw [hfin] at hp
          rcases List.mem_singleton.1 hp with rfl
          exact (hcur p hfin).1

/-- Witness for C7 at a concrete single-prose article. -/
theorem content_full_roundtrip_witness :
    (⟨none, [⟨"chapeau", none, none, "only prose", 1⟩], "only prose",
        [("total_elements", "1"), ("chapeau_count", "1"),
          ("subparagraph_count", "0")]⟩ : Paragraph).content_full =
      reconstructFull (⟨none, [⟨"chapeau", none, none, "only prose", 1⟩], "only prose",
        [("total_elements", "1"), ("chapeau_count", "1"),
          ("subparagraph_count", "0")]⟩ : Paragraph).ordered_contents :=
  content_full_roundtrip "T" "Scope" none []
    [⟨true, "only prose", "only prose", none, [], []⟩] _ (by decide)

/-! ## C8: order indices within a paragraph -/

/-- Counterexample to C8 as stated: a paragraph assembled from a
numbered fragment and a continuation fragment has order indices
`[1, 1]` — the appended fragment's numbering restarts at 1, so the
indices are not strictly increasing. -/
theorem order_index_restart_cex :
    (extractParagraphs "T" "Scope" none []
        [⟨true, "1. Ab", "1. Ab", some "1. Ab", [], []⟩,
          ⟨true, "Cd", "Cd", none, [], ["Cd"]⟩]).map
      (fun p => p.ordered_contents.map (fun it => it.order_index)) = [[1, 1]] ∧
    ¬ List.Pairwise (fun a b => a < b) [1, 1] := by
  refine ⟨by decide, ?_⟩
  intro h
  exact absurd ((List.pairwise_cons.1 h).1 1 (List.mem_singleton_self 1)) (by omega)

/-- C8 (amended).  Order indices are 1-based and consecutive
(`1, 2, ...`, hence strictly increasing) within every paragraph
produced by a single `_parse_paragraph` call and within the
definitions-branch paragraph; when a paragraph is assembled from
several source fragments the appended fragment's items restart at 1
(see the counterexample). -/
theorem order_index_consecutive :
    (∀ (isDef : Bool) (el : PElem) (p : Paragraph), parseParagraph isDef el = some p →
      p.ordered_contents.map (fun it => it.order_index) =
        List.range' 1 p.ordered_contents.length) ∧
    (∀ (t : String) (introText : Option String) (dts : List (List (List Cell))),
      (extractParagraphsDefBranch t introText dts).ordered_contents.map
          (fun it => it.order_index) =
        List.range' 1 (extractParagraphsDefBranch t introText dts).ordered_contents.length) := by
  constructor
  · intro isDef el p hp
    have hinv := (parseParagraph_state_inv isDef el).2.1
    simp only [parseParagraph] at hp
    split at hp
    · exact Option.noConfusion hp
    · simp only [Option.some.injEq] at hp
      subst hp
      show ((parseParagraphTrace isDef el).map Prod.snd).map (fun it => it.order_index) =
        List.range' 1 ((parseParagraphTrace isDef el).map Prod.snd).length
      rw [List.map_map, List.length_map]
      exact hinv
  · intro t introText dts
    exact (defBranch_spec t introText dts).2.2.1

/-- Witness for C8 (amended) at a concrete fragment and a concrete
definitions branch. -/
theorem order_index_consecutive_witness :
    ((⟨some "1",
        [⟨"chapeau", none, none, "Head", 1⟩,
          ⟨"subparagraph", some "a", some "a", "same text", 2⟩],
        "Head\n\n(a) same text",
        [("total_elements", "2"), ("chapeau_count", "1"),
          ("subparagraph_count", "1")]⟩ : Paragraph).ordered_contents.map
      (fun it => it.order_index) =
      List.range' 1 (⟨some "1",
        [⟨"chapeau", none, none, "Head", 1⟩,
          ⟨"subparagraph", some "a", some "a", "same text", 2⟩],
        "Head\n\n(a) same text",
        [("total_elements", "2"), ("chapeau_count", "1"),
          ("subparagraph_count", "1")]⟩ : Paragraph).ordered_contents.length) ∧
    ((extractParagraphsDefBranch "T" none
        [[[⟨"(a)", some "(a)"⟩, ⟨"c means x", some "c means x"⟩]]]).ordered_contents.map
      (fun it => it.order_index) =
      List.range' 1 (extractParagraphsDefBranch "T" none
        [[[⟨"(a)", some "(a)"⟩, ⟨"c means x", some "c means x"⟩]]]).ordered_contents.length) :=
  ⟨order_index_consecutive.1 false ⟨false, "1. Head", "1. Head", some "1. Head",
      [[⟨"(a)", some "(a)"⟩, ⟨"same text", some "same text"⟩],
        [⟨"(b)", some "(b)"⟩, ⟨"same text", some "same text"⟩]], []⟩ _ (by decide),
    order_index_consecutive.2 "T" none
      [[[⟨"(a)", some "(a)"⟩, ⟨"c means x", some "c means x"⟩]]]⟩

/-! ## C9: determinism of the full extraction -/

theorem insertByKey_map {α β} (key : α → Nat) (key' : β → Nat) (f : α → β)
    (hk : ∀ a, key' (f a) = key a) (a : α) :
    ∀ l, (insertByKey key a l).map f = insertByKey key' (f a) (l.map f) := by
  intro l
  induction l with
  | nil => rfl
  | cons b bs ih =>
    by_cases h : key a ≤ key b
    · simp [insertByKey, h, hk]
    · simp [insertByKey, h, hk, ih]

theorem sortByKey_map {α β} (key : α → Nat) (key' : β → Nat) (f : α → β)
    (hk : ∀ a, key' (f a) = key a) :
    ∀ l, (sortByKey key l).map f = sortByKey key' (l.map f) := by
  intro l
  induction l with
  | nil => rfl
  | cons a as' ih =>
    simp only [sortByKey, List.map_cons]
    rw [insertByKey_map key key' f hk, ih]

theorem recitalItem_strip (t t' : String) (ri : RecitalInput) :
    (recitalItem t ri).map stripRecitalTs = (recitalItem t' ri).map stripRecitalTs := by
  unfold recitalItem
  rcases hps : ri.ps with _ | ⟨text, restPs⟩
  · rfl
  · rcases hn : parseRecitalNumber text with _ | ⟨num, after⟩
    · simp [hn]
    · simp [hn, stripRecitalTs]

theorem extractRecitals_strip (t t' : String) (rs : List RecitalInput) :
    (extractRecitals t rs).map stripRecitalTs =
      (extractRecitals t' rs).map stripRecitalTs := by
  unfold extractRecitals
  rw [sortByKey_map (fun r => (String.toNat? r.recital_number).getD 0)
      (fun r => (String.toNat? r.recital_number).getD 0) stripRecitalTs (fun r => rfl),
    sortByKey_map (fun r => (String.toNat? r.recital_number).getD 0)
      (fun r => (String.toNat? r.recital_number).getD 0) stripRecitalTs (fun r => rfl)]
  rw [List.map_filterMap, List.map_filterMap]
  exact congrArg _ (List.filterMap_congr (fun ri _ => recitalItem_strip t t' ri))

theorem stripDefBranch_eq (t t' : String) (introText : Option String)
    (dts : List (List (List Cell))) :
    stripParagraphTs (extractParagraphsDefBranch t introText dts) =
      stripParagraphTs (extractParagraphsDefBranch t' introText dts) := by
  simp [stripParagraphTs, extractParagraphsDefBranch]

theorem extractParagraphs_strip (t t' title : String) (introP : Option String)
    (dts : List (List (List Cell))) (els : List PElem) :
    (extractParagraphs t title introP dts els).map stripParagraphTs =
      (extractParagraphs t' title introP dts els).map stripParagraphTs := by
  simp only [extractParagraphs]
  by_cases h1 : isDefinitionArticle title = true ∧ dts ≠ []
  · rw [if_pos h1, if_pos h1]
    simp only [List.map_cons, List.map_nil]
    rw [stripDefBranch_eq t t']
  · rw [if_neg h1, if_neg h1]

theorem extractArticle_strip (t t' : String) (ai : ArticleInput) :
    stripArticleTs (extractArticle t ai) = stripArticleTs (extractArticle t' ai) := by
  have hp := extractParagraphs_strip t t' ((ai.titleRaw.map normalizeText).getD "")
    ai.introP ai.defTables ai.elements
  have hco : (extractParagraphs t ((ai.titleRaw.map normalizeText).getD "")
        ai.introP ai.defTables ai.elements).map (fun p => p.content_full) =
      (extractParagraphs t' ((ai.titleRaw.map normalizeText).getD "")
        ai.introP ai.defTables ai.elements).map (fun p => p.content_full) := by
    have h2 := congrArg (List.map (fun p => p.content_full)) hp
    simpa [List.map_map] using h2
  simp only [extractArticle, stripArticleTs, Article.mk.injEq, true_and, and_true]
  refine ⟨hp, ?_⟩
  rw [hco]

theorem extractArticles_strip (t t' : String) (ais : List ArticleInput) :
    (extractArticles t ais).map stripArticleTs =
      (extractArticles t' ais).map stripArticleTs := by
  unfold extractArticles
  rw [sortByKey_map (fun a => a.article_number) (fun a => a.article_number)
      stripArticleTs (fun a => rfl),
    sortByKey_map (fun a => a.article_number) (fun a => a.article_number)
      stripArticleTs (fun a => rfl)]
  rw [List.map_map, List.map_map]
  exact congrArg _ (List.map_congr_left (fun ai _ => extractArticle_strip t t' ai))

/-- C9 (amended).  The full extraction is a deterministic function of
the input document and the wall-clock timestamps recorded in the
`extracted_at` metadata fields: with those fields blanked, two runs at
different times produce identical documents.  (Byte-identical output as
claimed fails precisely because of the timestamps; see the
counterexample.) -/
theorem extraction_deterministic_modulo_timestamps (name t1 t2 : String)
    (rs : List RecitalInput) (chs : List Chapter) (ais : List ArticleInput)
    (frags : List (String × List AnnexSection)) :
    stripDocumentTs (buildDocument name t1 rs chs ais frags) =
      stripDocumentTs (buildDocument name t2 rs chs ais frags) := by
  simp only [buildDocument, stripDocumentTs, Document.mk.injEq, true_and, and_true]
  exact ⟨extractRecitals_strip t1 t2 rs, extractArticles_strip t1 t2 ais⟩

/-- Counterexample to C9 as stated: two runs of the extraction on the
same (here: empty) document at different clock readings produce
different outputs — the `extracted_at` metadata differs. -/
theorem extraction_embeds_timestamps :
    buildDocument "R" "t1" [] [] [] [] ≠ buildDocument "R" "t2" [] [] [] [] := by
  decide

end EUReg
